import Mathlib

/-!
A verification development for the photondb storage engine core: the
sharded clock page cache (`photondb/src/page_store/cache.rs`) and the
Bw-tree engine (`src/engine/src/tree/table.rs`).

The Rust source is embedded shallowly: the 64-bit meta word of a cache
slot becomes a `Nat` with explicit masks and shifts, per-slot atomic
routines become pure functions of the observed word (the sequential,
interference-free execution of each routine), and the mapping table of
the tree becomes an explicit single-slot state threaded through the
structure-modification routines.
-/

namespace PhotonDB

/-! ## Cache slot meta word (cache.rs lines 95-131, 578-588)

The 64-bit meta word of a clock-cache slot:
bits [0,29] acquire counter, bits [30,59] release counter,
bits [60,62] state. -/

def COUNTER_NUM_BITS : Nat := 30

def COUNTER_MASK : Nat := (1 <<< COUNTER_NUM_BITS) - 1

def ACQUIRE_COUNTER_SHIFT : Nat := 0

def ACQUIRE_INCREMENT : Nat := 1 <<< ACQUIRE_COUNTER_SHIFT

def RELEASE_COUNTER_SHIFT : Nat := COUNTER_NUM_BITS

def RELEASE_INCREMENT : Nat := 1 <<< RELEASE_COUNTER_SHIFT

def STATE_SHIFT : Nat := 2 * COUNTER_NUM_BITS

def STATE_OCCUPIED_BIT : Nat := 4

def STATE_SHAREABLE_BIT : Nat := 2

def STATE_VISIBLE_BIT : Nat := 1

def STATE_EMPTY : Nat := 0

def STATE_CONSTRUCTION : Nat := STATE_OCCUPIED_BIT

def STATE_INVISIBLE : Nat := STATE_OCCUPIED_BIT ||| STATE_SHAREABLE_BIT

def STATE_VISIBLE : Nat := STATE_OCCUPIED_BIT ||| STATE_SHAREABLE_BIT ||| STATE_VISIBLE_BIT

def HIGH_COUNT_DOWN : Nat := 3

def MAX_COUNT_DOWN : Nat := HIGH_COUNT_DOWN

/-- A meta word assembled from state, acquire counter and release counter
(the layout of cache.rs: counters are 30 bits, state sits at bit 60). -/
def mkMeta (state acquire release : Nat) : Nat :=
  (state <<< STATE_SHIFT) + (release <<< RELEASE_COUNTER_SHIFT) + acquire

/-- The word's `(meta >> ACQUIRE_COUNTER_SHIFT) & COUNTER_MASK`. -/
def acquireCount (meta : Nat) : Nat :=
  (meta >>> ACQUIRE_COUNTER_SHIFT) &&& COUNTER_MASK

/-- The word's `(meta >> RELEASE_COUNTER_SHIFT) & COUNTER_MASK`. -/
def releaseCount (meta : Nat) : Nat :=
  (meta >>> RELEASE_COUNTER_SHIFT) &&& COUNTER_MASK

/-- The word's `(meta >> STATE_SHIFT) as u8` (meta is below `2^64`, so the shift
already fits in 8 bits). -/
def stateOf (meta : Nat) : Nat :=
  meta >>> STATE_SHIFT

/-- From `ClockCacheHandleTable::ref_count` (cache.rs lines 570-572):
`((meta >> ACQUIRE_COUNTER_SHIFT) - (meta >> RELEASE_COUNTER_SHIFT)) & COUNTER_MASK`.
The u64 subtraction never underflows because shifting right by more bits
gives the smaller number, so Nat subtraction is exact. -/
def refCount (meta : Nat) : Nat :=
  ((meta >>> ACQUIRE_COUNTER_SHIFT) - (meta >>> RELEASE_COUNTER_SHIFT)) &&& COUNTER_MASK

/-! Field-extraction lemmas for assembled meta words. -/

theorem counter_mask_eq : COUNTER_MASK = 2 ^ 30 - 1 := by
  decide

theorem mkMeta_eq (s a r : Nat) :
    mkMeta s a r = s * 2 ^ 60 + r * 2 ^ 30 + a := by
  simp [mkMeta, STATE_SHIFT, RELEASE_COUNTER_SHIFT, COUNTER_NUM_BITS, Nat.shiftLeft_eq]

theorem acquireCount_mkMeta (s a r : Nat) (ha : a < 2 ^ 30) :
    acquireCount (mkMeta s a r) = a := by
  have h : mkMeta s a r = (s * 2 ^ 30 + r) * 2 ^ 30 + a := by
    rw [mkMeta_eq]; ring
  simp only [acquireCount, ACQUIRE_COUNTER_SHIFT, Nat.shiftRight_zero, counter_mask_eq,
    Nat.and_pow_two_sub_one_eq_mod, h]
  omega

theorem shiftRight30_mkMeta (s a r : Nat) (ha : a < 2 ^ 30) :
    mkMeta s a r >>> 30 = s * 2 ^ 30 + r := by
  have h : mkMeta s a r = 2 ^ 30 * (s * 2 ^ 30 + r) + a := by
    rw [mkMeta_eq]; ring
  rw [Nat.shiftRight_eq_div_pow, h, Nat.mul_add_div (by norm_num)]
  omega

theorem releaseCount_mkMeta (s a r : Nat) (ha : a < 2 ^ 30) (hr : r < 2 ^ 30) :
    releaseCount (mkMeta s a r) = r := by
  simp only [releaseCount, RELEASE_COUNTER_SHIFT, COUNTER_NUM_BITS,
    shiftRight30_mkMeta s a r ha, counter_mask_eq, Nat.and_pow_two_sub_one_eq_mod]
  have h : s * 2 ^ 30 + r = 2 ^ 30 * s + r := by ring
  rw [h, Nat.mul_add_mod]
  omega

theorem stateOf_mkMeta (s a r : Nat) (ha : a < 2 ^ 30) (hr : r < 2 ^ 30) :
    stateOf (mkMeta s a r) = s := by
  have h : mkMeta s a r = 2 ^ 60 * s + (r * 2 ^ 30 + a) := by
    rw [mkMeta_eq]; ring
  have hlt : r * 2 ^ 30 + a < 2 ^ 60 := by
    have h1 : r * 2 ^ 30 ≤ (2 ^ 30 - 1) * 2 ^ 30 := Nat.mul_le_mul_right _ (by omega)
    have h2 : (2 ^ 30 - 1) * 2 ^ 30 + 2 ^ 30 ≤ 2 ^ 60 := by norm_num
    omega
  have hs : STATE_SHIFT = 60 := by decide
  rw [stateOf, hs, Nat.shiftRight_eq_div_pow, h, Nat.mul_add_div (by norm_num),
    Nat.div_eq_of_lt hlt]
  omega

theorem refCount_sub (s a r : Nat) (ha : a < 2 ^ 30) :
    refCount (mkMeta s a r)
      = ((s * 2 ^ 30 + r) * (2 ^ 30 - 1) + a) % 2 ^ 30 := by
  have hdiv := shiftRight30_mkMeta s a r ha
  have hsub : mkMeta s a r - mkMeta s a r >>> 30
      = (s * 2 ^ 30 + r) * (2 ^ 30 - 1) + a := by
    rw [hdiv, mkMeta_eq]
    have expand : (s * 2 ^ 30 + r) * (2 ^ 30 - 1) = s * 2 ^ 60 + r * 2 ^ 30 - (s * 2 ^ 30 + r) := by
      have e : (s * 2 ^ 30 + r) * (2 ^ 30 - 1) + (s * 2 ^ 30 + r)
          = s * 2 ^ 60 + r * 2 ^ 30 := by
        have : (2:Nat) ^ 30 - 1 + 1 = 2 ^ 30 := by norm_num
        calc (s * 2 ^ 30 + r) * (2 ^ 30 - 1) + (s * 2 ^ 30 + r)
            = (s * 2 ^ 30 + r) * ((2 ^ 30 - 1) + 1) := by ring
        _ = (s * 2 ^ 30 + r) * 2 ^ 30 := by rw [this]
        _ = s * 2 ^ 60 + r * 2 ^ 30 := by ring
      omega
    have hle : s * 2 ^ 30 + r ≤ s * 2 ^ 60 + r * 2 ^ 30 := by
      have : s * 2 ^ 30 ≤ s * 2 ^ 60 := Nat.mul_le_mul_left _ (by norm_num)
      have : r ≤ r * 2 ^ 30 := Nat.le_mul_of_pos_right _ (by norm_num)
      omega
    omega
  simp only [refCount, ACQUIRE_COUNTER_SHIFT, RELEASE_COUNTER_SHIFT, COUNTER_NUM_BITS,
    Nat.shiftRight_zero, counter_mask_eq, Nat.and_pow_two_sub_one_eq_mod, hsub]

/-- A slot with acquire = release + 1 holds exactly one reference. -/
theorem refCount_mkMeta_succ (s r : Nat) (hr : r + 1 < 2 ^ 30) :
    refCount (mkMeta s (r + 1) r) = 1 := by
  rw [refCount_sub s (r + 1) r hr]
  have h : (s * 2 ^ 30 + r) * (2 ^ 30 - 1) + (r + 1)
      = 2 ^ 30 * (s * (2 ^ 30 - 1) + r) + 1 := by
    have e : (2:Nat) ^ 30 - 1 + 1 = 2 ^ 30 := by norm_num
    calc (s * 2 ^ 30 + r) * (2 ^ 30 - 1) + (r + 1)
        = s * 2 ^ 30 * (2 ^ 30 - 1) + r * ((2 ^ 30 - 1) + 1) + 1 := by ring
    _ = s * 2 ^ 30 * (2 ^ 30 - 1) + r * 2 ^ 30 + 1 := by rw [e]
    _ = 2 ^ 30 * (s * (2 ^ 30 - 1) + r) + 1 := by ring
  rw [h, Nat.mul_add_mod]
  norm_num

/-- A slot with acquire = release holds no reference. -/
theorem refCount_mkMeta_eq (s a : Nat) (ha : a < 2 ^ 30) :
    refCount (mkMeta s a a) = 0 := by
  rw [refCount_sub s a a ha]
  have h : (s * 2 ^ 30 + a) * (2 ^ 30 - 1) + a
      = 2 ^ 30 * (s * (2 ^ 30 - 1) + a) := by
    have e : (2:Nat) ^ 30 - 1 + 1 = 2 ^ 30 := by norm_num
    calc (s * 2 ^ 30 + a) * (2 ^ 30 - 1) + a
        = s * 2 ^ 30 * (2 ^ 30 - 1) + a * ((2 ^ 30 - 1) + 1) := by ring
    _ = s * 2 ^ 30 * (2 ^ 30 - 1) + a * 2 ^ 30 := by rw [e]
    _ = 2 ^ 30 * (s * (2 ^ 30 - 1) + a) := by ring
  rw [h, Nat.mul_mod_right]

/-! ## Near-overflow correction (cache.rs lines 578-588)

`COUNTER_TO_BIT = 1 << 29`; `CLEAR_BITS` covers bit 29 of both counters
(bits 29 and 59 of the word); `CHECK_BITS` covers bit 29 of the release
counter and the `MAX_COUNT_DOWN + 1` marker of the release counter
(bits 59 and 32 of the word). -/

def COUNTER_TO_BIT : Nat := 1 <<< (COUNTER_NUM_BITS - 1)

def CLEAR_BITS : Nat :=
  (COUNTER_TO_BIT <<< ACQUIRE_COUNTER_SHIFT) ||| (COUNTER_TO_BIT <<< RELEASE_COUNTER_SHIFT)

def CHECK_BITS : Nat :=
  (COUNTER_TO_BIT ||| (MAX_COUNT_DOWN + 1)) <<< RELEASE_COUNTER_SHIFT

/-- The u64 complement of `CLEAR_BITS` (`!Self::CLEAR_BITS` in Rust). -/
def NOT_CLEAR_BITS : Nat := (2 ^ 64 - 1) ^^^ CLEAR_BITS

/-- Whether `correct_near_overflow` performs the `fetch_and`
(cache.rs line 585: `old_meta & Self::CHECK_BITS > 0`). -/
def correctNearOverflowFires (oldMeta : Nat) : Bool :=
  oldMeta &&& CHECK_BITS > 0

/-- The word written by `correct_near_overflow`'s
`meta.fetch_and(!Self::CLEAR_BITS)` when it fires. -/
def correctNearOverflowApply (meta : Nat) : Nat :=
  meta &&& NOT_CLEAR_BITS

theorem check_bits_eq : CHECK_BITS = 2 ^ 59 ||| 2 ^ 32 := by
  decide

theorem check_bits_testBit (i : Nat) :
    ((2 ^ 59 ||| 2 ^ 32) : Nat).testBit i = (decide (59 = i) || decide (32 = i)) := by
  rw [Nat.testBit_or, Nat.testBit_two_pow, Nat.testBit_two_pow]

theorem and_check_bits_pos_iff (meta : Nat) :
    0 < meta &&& CHECK_BITS ↔ (meta.testBit 59 = true ∨ meta.testBit 32 = true) := by
  rw [check_bits_eq]
  constructor
  · intro h
    by_contra hc
    push_neg at hc
    obtain ⟨h59, h32⟩ := hc
    have h59' : meta.testBit 59 = false := by simpa using h59
    have h32' : meta.testBit 32 = false := by simpa using h32
    have hz : meta &&& (2 ^ 59 ||| 2 ^ 32) = 0 := by
      apply Nat.eq_of_testBit_eq
      intro i
      rw [Nat.testBit_and, check_bits_testBit, Nat.zero_testBit]
      rcases eq_or_ne i 59 with rfl | hne59
      · rw [h59']
        rfl
      · rcases eq_or_ne i 32 with rfl | hne32
        · rw [h32']
          simp
        · have d1 : decide (59 = i) = false := decide_eq_false (Ne.symm hne59)
          have d2 : decide (32 = i) = false := decide_eq_false (Ne.symm hne32)
          rw [d1, d2]
          simp
    omega
  · intro h
    have hbit : (meta &&& (2 ^ 59 ||| 2 ^ 32)).testBit 59 = true
        ∨ (meta &&& (2 ^ 59 ||| 2 ^ 32)).testBit 32 = true := by
      rcases h with h | h
      · left
        rw [Nat.testBit_and, check_bits_testBit, h]
        simp
      · right
        rw [Nat.testBit_and, check_bits_testBit, h]
        simp
    rcases hbit with h | h <;> have := Nat.testBit_implies_ge h <;> omega

/-- C7 (amended): in `release`, the near-overflow correction fires when at
least one of bit 29 of the release counter (bit 59 of the meta word) or the
`MAX_COUNT_DOWN + 1` marker of the release counter (bit 32 of the meta
word) is set in the observed word — an OR of the two bits, not an AND. -/
theorem c7_near_overflow_fires_iff (meta : Nat) :
    correctNearOverflowFires meta = true
      ↔ (meta.testBit 59 = true ∨ meta.testBit 32 = true) := by
  rw [correctNearOverflowFires, decide_eq_true_iff]
  exact and_check_bits_pos_iff meta

/-- C7 (counterexample): a meta word with bit 29 of the release counter set
but the `MAX_COUNT_DOWN + 1` marker clear still triggers the correction, so
the correction is not performed "only when both are set" as claimed. -/
theorem c7_near_overflow_counterexample :
    correctNearOverflowFires (2 ^ 59) = true ∧ (2 ^ 59 : Nat).testBit 32 = false := by
  constructor
  · rw [correctNearOverflowFires, decide_eq_true_iff]
    show 0 < 2 ^ 59 &&& CHECK_BITS
    rw [(and_check_bits_pos_iff (2 ^ 59))]
    left
    exact Nat.testBit_two_pow_self
  · exact Nat.testBit_two_pow_of_ne (by omega)

/-! ## Clock eviction (cache.rs lines 617-693)

`evit` walks the table from the shared clock pointer in windows of
`STEP_SIZE` slots.  The decision taken for one probed slot is a pure
function of the observed meta word; in the sequential execution both
`compare_exchange` calls succeed. -/

inductive ClockDecision where
  | skip
  | decrement (newMeta : Nat)
  | evict
  deriving DecidableEq, Repr

/-- One probed slot of `evit` (cache.rs lines 637-680). -/
def clockUpdateSlot (meta : Nat) : ClockDecision :=
  let acquire_count := (meta >>> ACQUIRE_COUNTER_SHIFT) &&& COUNTER_MASK
  let release_count := (meta >>> RELEASE_COUNTER_SHIFT) &&& COUNTER_MASK
  if acquire_count ≠ release_count then
    -- Only clock update entries with no outstanding refs
    ClockDecision.skip
  else if (meta >>> STATE_SHIFT) &&& STATE_SHAREABLE_BIT = 0 then
    -- Only clock update Shareable entries
    ClockDecision.skip
  else if meta >>> STATE_SHIFT = STATE_INVISIBLE ∧ 0 < acquire_count then
    -- "Decrement clock" branch as written in the source: it tests
    -- STATE_INVISIBLE, then writes the decremented countdown back with
    -- STATE_VISIBLE.
    let new_count := min (acquire_count - 1) (MAX_COUNT_DOWN - 1)
    ClockDecision.decrement ((STATE_VISIBLE <<< STATE_SHIFT)
      ||| (new_count <<< RELEASE_COUNTER_SHIFT) ||| (new_count <<< ACQUIRE_COUNTER_SHIFT))
  else
    -- compare_exchange to CONSTRUCTION, then swap to EMPTY: the slot is
    -- evicted.
    ClockDecision.evict

/-- C2 (failing input): a VISIBLE slot with no references and countdown 3 is
evicted outright instead of receiving a clock tick, because the decrement
branch of `evit` tests `STATE_INVISIBLE` where its own comment (and the
spec) call for `STATE_VISIBLE`; dually, an INVISIBLE slot with countdown 2
would be "decremented" back into a VISIBLE slot with countdown 1. -/
theorem c2_clock_tick_failing_input :
    clockUpdateSlot (mkMeta STATE_VISIBLE 3 3) = ClockDecision.evict ∧
    clockUpdateSlot (mkMeta STATE_INVISIBLE 2 2)
      = ClockDecision.decrement (mkMeta STATE_VISIBLE 1 1) := by
  constructor
  · rfl
  · rfl

/-! The eviction pass itself.  A slot of the table is its meta word and the
charge of the handle it holds. -/

def STEP_SIZE : Nat := 4

structure EvitAcc where
  slots : List (Nat × Nat)
  evictedCharge : Nat
  evictedCount : Nat
  deriving DecidableEq, Repr

/-- One slot of the window (`for i in 0..STEP_SIZE`, cache.rs lines
633-680): the slot index is `mod_table_size(old_clock_pointer + i)`; an
evicted slot's meta is swapped to 0 (EMPTY) and its charge accumulated. -/
def evitProbe (acc : EvitAcc) (ptr i : Nat) : EvitAcc :=
  let idx := (ptr + i) % acc.slots.length
  match acc.slots.get? idx with
  | none => acc
  | some (meta, charge) =>
    match clockUpdateSlot meta with
    | ClockDecision.skip => acc
    | ClockDecision.decrement newMeta =>
      { acc with slots := acc.slots.set idx (newMeta, charge) }
    | ClockDecision.evict =>
      { acc with
        slots := acc.slots.set idx (0, charge)
        evictedCharge := acc.evictedCharge + charge
        evictedCount := acc.evictedCount + 1 }

/-- One window of `STEP_SIZE` slots starting at the clock pointer. -/
def evitWindow (acc : EvitAcc) (ptr : Nat) : EvitAcc :=
  evitProbe (evitProbe (evitProbe (evitProbe acc ptr 0) ptr 1) ptr 2) ptr 3

/-- The loop of `evit` (cache.rs lines 632-692), sequentially: the shared
clock pointer advances by `STEP_SIZE` per iteration, so `ptr` tracks
`old_clock_pointer`.  Returns the final accumulator and the value of
`old_clock_pointer` in the iteration that returned. -/
def evitLoop (requested maxPtr : Nat) (acc : EvitAcc) (ptr : Nat) : EvitAcc × Nat :=
  let acc' := evitWindow acc ptr
  if requested ≤ acc'.evictedCharge then (acc', ptr)
  else if maxPtr ≤ ptr then (acc', ptr)
  else evitLoop requested maxPtr acc' (ptr + STEP_SIZE)
termination_by maxPtr - ptr
decreasing_by
  simp only [STEP_SIZE]
  omega

/-- From `evit` (cache.rs lines 617-693): `old_clock_pointer` starts at the value
read at entry and the walk is bounded by
`old_clock_pointer + (MAX_COUNT_DOWN << length_bits)`, i.e.
`MAX_COUNT_DOWN * table_size` slots past the entry value. -/
def evit (slots : List (Nat × Nat)) (requested clockPointer : Nat) : EvitAcc × Nat :=
  let maxPtr := clockPointer + MAX_COUNT_DOWN * slots.length
  evitLoop requested maxPtr ⟨slots, 0, 0⟩ clockPointer

theorem evitLoop_spec (requested maxPtr : Nat) :
    ∀ fuel ptr acc, maxPtr + STEP_SIZE - ptr ≤ fuel →
      (requested ≤ (evitLoop requested maxPtr acc ptr).1.evictedCharge
        ∨ maxPtr ≤ (evitLoop requested maxPtr acc ptr).2)
      ∧ ((evitLoop requested maxPtr acc ptr).2 ≤ ptr
        ∨ (evitLoop requested maxPtr acc ptr).2 < maxPtr + STEP_SIZE) := by
  intro fuel
  induction fuel with
  | zero =>
    intro ptr acc h
    rw [evitLoop]
    have hle : maxPtr ≤ ptr := by
      simp only [STEP_SIZE] at h
      omega
    by_cases h1 : requested ≤ (evitWindow acc ptr).evictedCharge
    · simp [h1, hle]
    · simp [h1, hle]
  | succ fuel ih =>
    intro ptr acc h
    rw [evitLoop]
    by_cases h1 : requested ≤ (evitWindow acc ptr).evictedCharge
    · simp [h1]
    · by_cases h2 : maxPtr ≤ ptr
      · simp [h1, h2]
      · have hfuel : maxPtr + STEP_SIZE - (ptr + STEP_SIZE) ≤ fuel := by
          simp only [STEP_SIZE] at h ⊢
          omega
        have := ih (ptr + STEP_SIZE) (evitWindow acc ptr) hfuel
        simp only [if_neg h1, if_neg h2]
        constructor
        · exact this.1
        · rcases this.2 with hc | hc
          · right
            simp only [STEP_SIZE] at hc ⊢
            omega
          · right
            exact hc

/-- C9: the clock eviction pass terminates (it is a total function of the
observed table), and it returns only once the accumulated evicted charge
reaches the requested charge or the clock pointer has advanced
`MAX_COUNT_DOWN * table_size` slots past the value read at entry — and the
pointer overshoots that bound by less than one window. -/
theorem c9_evit_stops (slots : List (Nat × Nat)) (requested clockPointer : Nat) :
    (requested ≤ (evit slots requested clockPointer).1.evictedCharge
      ∨ clockPointer + MAX_COUNT_DOWN * slots.length ≤ (evit slots requested clockPointer).2)
    ∧ (evit slots requested clockPointer).2
        < clockPointer + MAX_COUNT_DOWN * slots.length + STEP_SIZE := by
  have h := evitLoop_spec requested (clockPointer + MAX_COUNT_DOWN * slots.length)
    (clockPointer + MAX_COUNT_DOWN * slots.length + STEP_SIZE - clockPointer)
    clockPointer ⟨slots, 0, 0⟩ (by omega)
  refine ⟨h.1, ?_⟩
  rcases h.2 with hc | hc
  · have : 0 < STEP_SIZE := by decide
    calc (evit slots requested clockPointer).2 ≤ clockPointer := hc
    _ < clockPointer + MAX_COUNT_DOWN * slots.length + STEP_SIZE := by omega
  · exact hc

/-! ## Lookup, detached entries and release
(cache.rs lines 224-253, 389-407, 512-568) -/

/-- The meta word `insert` stores into a freshly created detached handle
(cache.rs lines 401-403): `(STATE_INVISIBLE << STATE_SHIFT) | (1 << ACQUIRE_COUNTER_SHIFT)`. -/
def detachedInitMeta : Nat :=
  ((STATE_INVISIBLE <<< STATE_SHIFT)) ||| (1 <<< ACQUIRE_COUNTER_SHIFT)

/-- The probe `lookup` runs on one slot (cache.rs lines 227-242): fetch-add
the acquire counter, match only a VISIBLE slot with the right key, undo the
acquire on a non-matching VISIBLE or an INVISIBLE slot.  Returns whether
the slot matched and the meta word it leaves behind. -/
def lookupSlotProbe (meta slotKey key : Nat) : Bool × Nat :=
  let m1 := meta + ACQUIRE_INCREMENT
  if meta >>> STATE_SHIFT = STATE_VISIBLE then
    if slotKey = key then (true, m1)
    else (false, m1 - ACQUIRE_INCREMENT)
  else if meta >>> STATE_SHIFT = STATE_INVISIBLE then
    (false, m1 - ACQUIRE_INCREMENT)
  else
    (false, m1)

/-- The state of one handle and of the table counters `release` touches. -/
structure ReleaseState where
  meta : Nat
  detached : Bool
  charge : Nat
  detachedUsage : Nat
  usage : Nat
  occupancy : Nat
  deriving DecidableEq, Repr

structure ReleaseOutcome where
  meta : Nat
  freedHandle : Bool
  detachedUsage : Nat
  usage : Nat
  occupancy : Nat
  returned : Bool
  deriving DecidableEq, Repr

/-- The effect of `correct_near_overflow(old, &meta)` on the stored word `cur`. -/
def correctNearOverflowOn (old cur : Nat) : Nat :=
  if correctNearOverflowFires old then correctNearOverflowApply cur else cur

/-- From `ClockCacheHandleTable::release` (cache.rs lines 512-567) in the
sequential execution (the CAS loop lands on its first iteration) with the
hard-coded `erase_if_last_ref = false`.  A freed detached handle's meta is
left at the CONSTRUCTION word the CAS wrote; an embedded handle's slot is
swapped to 0 (EMPTY) and occupancy decremented. -/
def releaseHandle (st : ReleaseState) : ReleaseOutcome :=
  let eraseIfLastRef := false
  let oldMeta := st.meta
  let afterAdd := st.meta + RELEASE_INCREMENT
  if eraseIfLastRef ∨ oldMeta >>> STATE_SHIFT = STATE_INVISIBLE then
    let om := oldMeta + RELEASE_INCREMENT
    if refCount om ≠ 0 then
      { meta := correctNearOverflowOn om afterAdd, freedHandle := false,
        detachedUsage := st.detachedUsage, usage := st.usage,
        occupancy := st.occupancy, returned := false }
    else if om &&& (STATE_SHAREABLE_BIT <<< STATE_SHIFT) = 0 then
      { meta := afterAdd, freedHandle := false, detachedUsage := st.detachedUsage,
        usage := st.usage, occupancy := st.occupancy, returned := false }
    else if st.detached then
      { meta := STATE_CONSTRUCTION <<< STATE_SHIFT, freedHandle := true,
        detachedUsage := st.detachedUsage - st.charge,
        usage := st.usage - st.charge, occupancy := st.occupancy, returned := true }
    else
      { meta := 0, freedHandle := false, detachedUsage := st.detachedUsage,
        usage := st.usage - st.charge, occupancy := st.occupancy - 1, returned := true }
  else
    { meta := correctNearOverflowOn oldMeta afterAdd, freedHandle := false,
      detachedUsage := st.detachedUsage, usage := st.usage,
      occupancy := st.occupancy, returned := false }

theorem detachedInitMeta_eq : detachedInitMeta = mkMeta STATE_INVISIBLE 1 0 := by
  decide

/-- C10: a detached entry created by `insert` starts INVISIBLE holding
exactly one reference; `lookup` matches only VISIBLE slots (so it never
returns a detached entry); and for a detached handle at its last reference
(acquire = release + 1) `release` frees the handle and subtracts its charge
from the detached-usage meter. -/
theorem c10_detached_entries (r charge dUsage usage occ : Nat)
    (hr : r + 1 < 2 ^ 29) :
    stateOf detachedInitMeta = STATE_INVISIBLE ∧
    refCount detachedInitMeta = 1 ∧
    (∀ meta slotKey key, (lookupSlotProbe meta slotKey key).1 = true →
      stateOf meta = STATE_VISIBLE) ∧
    STATE_INVISIBLE ≠ STATE_VISIBLE ∧
    (releaseHandle ⟨mkMeta STATE_INVISIBLE (r + 1) r, true, charge, dUsage, usage, occ⟩).freedHandle
        = true ∧
    (releaseHandle ⟨mkMeta STATE_INVISIBLE (r + 1) r, true, charge, dUsage, usage, occ⟩).detachedUsage
        = dUsage - charge ∧
    (releaseHandle ⟨mkMeta STATE_INVISIBLE (r + 1) r, true, charge, dUsage, usage, occ⟩).returned
        = true := by
  have h30 : r + 1 < 2 ^ 30 := by
    have : (2:Nat) ^ 29 < 2 ^ 30 := by norm_num
    omega
  have hstate : stateOf (mkMeta STATE_INVISIBLE (r + 1) r) = STATE_INVISIBLE :=
    stateOf_mkMeta _ _ _ h30 (by omega)
  have hadd : mkMeta STATE_INVISIBLE (r + 1) r + RELEASE_INCREMENT
      = mkMeta STATE_INVISIBLE (r + 1) (r + 1) := by
    rw [mkMeta_eq, mkMeta_eq]
    have : RELEASE_INCREMENT = 2 ^ 30 := by decide
    rw [this]
    ring
  have hrc : refCount (mkMeta STATE_INVISIBLE (r + 1) (r + 1)) = 0 :=
    refCount_mkMeta_eq _ _ h30
  have hshare : mkMeta STATE_INVISIBLE (r + 1) (r + 1) &&& (STATE_SHAREABLE_BIT <<< STATE_SHIFT) ≠ 0 := by
    intro hz
    have hbit : (mkMeta STATE_INVISIBLE (r + 1) (r + 1)
        &&& (STATE_SHAREABLE_BIT <<< STATE_SHIFT)).testBit 61 = true := by
      rw [Nat.testBit_and]
      have h1 : (mkMeta STATE_INVISIBLE (r + 1) (r + 1)).testBit 61 = true := by
        have hdiv : mkMeta STATE_INVISIBLE (r + 1) (r + 1) / 2 ^ 61 = 3 := by
          have he : mkMeta STATE_INVISIBLE (r + 1) (r + 1)
              = 2 ^ 61 * 3 + ((r + 1) * 2 ^ 30 + (r + 1)) := by
            rw [mkMeta_eq]
            have : STATE_INVISIBLE = 6 := by decide
            rw [this]
            ring
          have hlt : (r + 1) * 2 ^ 30 + (r + 1) < 2 ^ 61 := by
            have h1 : (r + 1) * 2 ^ 30 ≤ (2 ^ 30 - 1) * 2 ^ 30 :=
              Nat.mul_le_mul_right _ (by omega)
            have h2 : ((2:Nat) ^ 30 - 1) * 2 ^ 30 + 2 ^ 30 ≤ 2 ^ 61 := by norm_num
            omega
          rw [he, Nat.mul_add_div (by norm_num), Nat.div_eq_of_lt hlt]
        rw [Nat.testBit_to_div_mod, hdiv]
        decide
      have h2 : ((STATE_SHAREABLE_BIT <<< STATE_SHIFT : Nat)).testBit 61 = true := by
        decide
      rw [h1, h2]
      decide
    rw [hz, Nat.zero_testBit] at hbit
    exact Bool.false_ne_true hbit
  have hstate' : mkMeta STATE_INVISIBLE (r + 1) r >>> STATE_SHIFT = STATE_INVISIBLE := hstate
  have key : releaseHandle ⟨mkMeta STATE_INVISIBLE (r + 1) r, true, charge, dUsage, usage, occ⟩
      = { meta := STATE_CONSTRUCTION <<< STATE_SHIFT, freedHandle := true,
          detachedUsage := dUsage - charge, usage := usage - charge,
          occupancy := occ, returned := true } := by
    rw [releaseHandle]
    rw [if_pos (Or.inr hstate')]
    simp [hadd, hrc, hshare]
  refine ⟨?_, ?_, ?_, by decide, ?_, ?_, ?_⟩
  · rw [detachedInitMeta_eq]
    exact stateOf_mkMeta _ _ _ (by norm_num) (by norm_num)
  · rw [detachedInitMeta_eq]
    exact refCount_mkMeta_succ 6 0 (by norm_num)
  · intro meta slotKey key hmatch
    rw [lookupSlotProbe] at hmatch
    by_cases hv : meta >>> STATE_SHIFT = STATE_VISIBLE
    · exact hv
    · rw [if_neg hv] at hmatch
      by_cases hi : meta >>> STATE_SHIFT = STATE_INVISIBLE
      · rw [if_pos hi] at hmatch
        exact absurd hmatch Bool.false_ne_true
      · rw [if_neg hi] at hmatch
        exact absurd hmatch Bool.false_ne_true
  · rw [key]
  · rw [key]
  · rw [key]

/-- Witness for `c10_detached_entries` at `r = 0`, `charge = 1`,
`dUsage = 5`: the detached handle is freed and the meter drops to 4. -/
theorem c10_detached_entries_witness :
    (releaseHandle ⟨mkMeta STATE_INVISIBLE 1 0, true, 1, 5, 7, 9⟩).freedHandle = true ∧
    (releaseHandle ⟨mkMeta STATE_INVISIBLE 1 0, true, 1, 5, 7, 9⟩).detachedUsage = 4 := by
  have h := c10_detached_entries 0 1 5 7 9 (by norm_num)
  exact ⟨h.2.2.2.2.1, h.2.2.2.2.2.1⟩

/-! ## Strict capacity policy (cache.rs lines 453-510) -/

inductive CacheError where
  | memoryLimit
  deriving DecidableEq, Repr

/-- The `new_usage` after the CAS-grow loop of
`change_usage_maybe_evict_strict` (cache.rs lines 463-484):
`capacity.min(old_usage + total_charge)` unless usage already sits at
capacity. -/
def strictNewUsage (usage totalCharge capacity : Nat) : Nat :=
  if usage ≠ capacity then min capacity (usage + totalCharge) else usage

/-- The `need_evict_charge = old_usage + total_charge - new_usage`
(cache.rs line 485). -/
def strictNeedEvictCharge (usage totalCharge capacity : Nat) : Nat :=
  usage + totalCharge - strictNewUsage usage totalCharge capacity

/-- The `request_evict_charge` (cache.rs lines 486-489). -/
def strictRequestEvictCharge (usage totalCharge capacity : Nat)
    (needEvictForOccupancy : Bool) : Nat :=
  if needEvictForOccupancy ∧ strictNeedEvictCharge usage totalCharge capacity = 0 then 1
  else strictNeedEvictCharge usage totalCharge capacity

/-- From `ClockCacheHandleTable::change_usage_maybe_evict_strict` (cache.rs
lines 453-510), sequentially.  `evict` abstracts `self.evit`: for a
requested charge it yields the `(evicted_charge, evicted_count)` the
eviction pass reclaims.  The returned pair is the final value of
`self.usage` and the result the function reports. -/
def changeUsageMaybeEvictStrict (usage totalCharge capacity : Nat)
    (needEvictForOccupancy : Bool) (evict : Nat → Nat × Nat) :
    Nat × Except CacheError Unit :=
  if capacity < totalCharge then (usage, Except.error CacheError.memoryLimit)
  else
    let newUsage := strictNewUsage usage totalCharge capacity
    let needEvictCharge := strictNeedEvictCharge usage totalCharge capacity
    let requestEvictCharge :=
      strictRequestEvictCharge usage totalCharge capacity needEvictForOccupancy
    if 0 < requestEvictCharge then
      let evictedCharge := (evict requestEvictCharge).1
      let evictedCount := (evict requestEvictCharge).2
      if needEvictCharge < evictedCharge then
        (newUsage - (evictedCharge - needEvictCharge), Except.ok ())
      else if evictedCharge < needEvictCharge
          ∨ (needEvictForOccupancy = true ∧ evictedCount = 0) then
        (newUsage - (evictedCharge + (newUsage - usage)), Except.error CacheError.memoryLimit)
      else
        (newUsage, Except.ok ())
    else
      (newUsage, Except.ok ())

/-- C3: under the strict capacity policy, an insert whose charge exceeds
the shard capacity fails with MemoryLimit and leaves usage unchanged; and
when eviction cannot reclaim the computed shortfall, the usage counter is
rolled back to `usage - evicted` (≤ the initial usage, so a failed strict
insert never net-increases usage) and MemoryLimit is reported.
`hsound` and `hzero` say the eviction oracle only reclaims charge that was
accounted in usage and reclaims nothing when it evicts no entry. -/
theorem c3_strict_insert_memory_limit (usage totalCharge capacity : Nat)
    (needOcc : Bool) (evict : Nat → Nat × Nat)
    (hsound : ∀ q, (evict q).1 ≤ usage)
    (hzero : ∀ q, (evict q).2 = 0 → (evict q).1 = 0) :
    (capacity < totalCharge →
      changeUsageMaybeEvictStrict usage totalCharge capacity needOcc evict
        = (usage, Except.error CacheError.memoryLimit)) ∧
    (totalCharge ≤ capacity → usage ≤ capacity →
      ((evict (strictRequestEvictCharge usage totalCharge capacity needOcc)).1
          < strictNeedEvictCharge usage totalCharge capacity
        ∨ (needOcc = true
          ∧ (evict (strictRequestEvictCharge usage totalCharge capacity needOcc)).2 = 0)) →
      (changeUsageMaybeEvictStrict usage totalCharge capacity needOcc evict).2
          = Except.error CacheError.memoryLimit
        ∧ (changeUsageMaybeEvictStrict usage totalCharge capacity needOcc evict).1
            = usage - (evict (strictRequestEvictCharge usage totalCharge capacity needOcc)).1
        ∧ (changeUsageMaybeEvictStrict usage totalCharge capacity needOcc evict).1 ≤ usage) := by
  constructor
  · intro hover
    rw [changeUsageMaybeEvictStrict, if_pos hover]
  · intro hfit hcap hfail
    set req := strictRequestEvictCharge usage totalCharge capacity needOcc with hreq
    set need := strictNeedEvictCharge usage totalCharge capacity with hneed
    set newU := strictNewUsage usage totalCharge capacity with hnewU
    have hUle : usage ≤ newU := by
      rw [hnewU, strictNewUsage]
      by_cases h : usage ≠ capacity
      · rw [if_pos h]
        omega
      · rw [if_neg h]
    have hneed_eq : need = usage + totalCharge - newU := by
      rw [hneed, hnewU, strictNeedEvictCharge, strictNewUsage]
    have hreq_pos : 0 < req := by
      rcases hfail with h | ⟨hocc, hcnt⟩
      · rw [hreq, strictRequestEvictCharge]
        by_cases hc : needOcc = true ∧ strictNeedEvictCharge usage totalCharge capacity = 0
        · rw [if_pos hc]
          omega
        · rw [if_neg hc, ← hneed]
          omega
      · rw [hreq, strictRequestEvictCharge]
        by_cases hzeroneed : strictNeedEvictCharge usage totalCharge capacity = 0
        · rw [if_pos ⟨hocc, hzeroneed⟩]
          omega
        · rw [if_neg (by tauto), ← hneed]
          omega
    have hnot_over : ¬ capacity < totalCharge := by omega
    rw [changeUsageMaybeEvictStrict, if_neg hnot_over]
    simp only [← hreq, ← hneed, ← hnewU]
    rw [if_pos hreq_pos]
    have hnofirst : ¬ need < (evict req).1 := by
      rcases hfail with h | ⟨hocc, hcnt⟩
      · omega
      · have := hzero req hcnt
        omega
    rw [if_neg hnofirst]
    have hsecond : (evict req).1 < need ∨ (needOcc = true ∧ (evict req).2 = 0) := hfail
    rw [if_pos hsecond]
    have hev := hsound req
    refine ⟨rfl, ?_, ?_⟩
    · show newU - ((evict req).1 + (newU - usage)) = usage - (evict req).1
      omega
    · show newU - ((evict req).1 + (newU - usage)) ≤ usage
      omega

/-- Witness for `c3_strict_insert_memory_limit`: capacity 2.  An insert of
charge 3 is rejected leaving usage 1 untouched; with usage already at the
capacity, an insert of charge 1 whose eviction reclaims nothing reports
MemoryLimit with usage rolled back to 2. -/
theorem c3_strict_insert_memory_limit_witness :
    changeUsageMaybeEvictStrict 1 3 2 false (fun _ => (0, 0))
        = (1, Except.error CacheError.memoryLimit) ∧
    (changeUsageMaybeEvictStrict 2 1 2 false (fun _ => (0, 0))).2
        = Except.error CacheError.memoryLimit ∧
    (changeUsageMaybeEvictStrict 2 1 2 false (fun _ => (0, 0))).1 = 2 := by
  have h1 := (c3_strict_insert_memory_limit 1 3 2 false (fun _ => (0, 0))
    (fun _ => by simp) (fun _ _ => rfl)).1 (by omega)
  have h2 := (c3_strict_insert_memory_limit 2 1 2 false (fun _ => (0, 0))
    (fun _ => by simp) (fun _ _ => rfl)).2 (by omega) (by omega)
    (by left; decide)
  exact ⟨h1, h2.1, h2.2.1.trans rfl⟩

/-! ## Bw-tree structure modifications (src/engine/src/tree/table.rs)

The mapping table of the node under modification is a single slot holding a
page address; `cas` (the `PageTable::cas` contract of spec §4.2: compare
and swap, returning the current value on failure) is the only mutation.
`freed` records the pages handed to `cache.dealloc_page` and `conflicts`
the `smo_conflicted` counter the failing routine bumps. -/

structure SmoState where
  slot : Nat
  freed : List Nat
  conflicts : Nat
  deriving DecidableEq, Repr

inductive SmoResult where
  | ok (page : Nat)
  | again
  deriving DecidableEq, Repr

/-- From `Inner::update_node` (table.rs lines 232-246): CAS the mapping slot
from `old` to `new`; on failure the freshly built page is deallocated and
Again reported. -/
def updateNode (st : SmoState) (old new : Nat) : SmoState × SmoResult :=
  if st.slot = old then ({ st with slot := new }, SmoResult.ok new)
  else ({ st with freed := new :: st.freed }, SmoResult.again)

/-- From `install_split_page` with the stats bookkeeping of `split_data_node` /
`split_index_node` (table.rs lines 484-494, 508-518, 524-551): on a lost
CAS the split delta (inside `update_node`) and the right page are
deallocated, the right node id is returned to the mapping table, the
conflict counter is incremented and Again is reported. -/
def installSplitPage (st : SmoState) (leftAddr splitPage rightPage : Nat) :
    SmoState × SmoResult :=
  match updateNode st leftAddr splitPage with
  | (st', SmoResult.ok p) => (st', SmoResult.ok p)
  | (st', SmoResult.again) =>
    ({ st' with freed := rightPage :: st'.freed, conflicts := st'.conflicts + 1 },
      SmoResult.again)

inductive ConsolidateResult where
  | ok (page : Nat)
  | okSwitch (page : Nat)
  | again
  deriving DecidableEq, Repr

/-- The install half of `consolidate_data_node` (table.rs lines 679-693)
together with `switch_consolidated_page` (lines 706-745), in the sequential
execution: once the first CAS has failed no further writer interferes, so
the switch CAS — whose expected value is re-read from the slot — lands on
its first iteration.  `view` is `page_view`, giving the version of the page
at an address.  `nodeVer`/`nodeLocked` are the version and lock bit of the
chain head the consolidation folded, `oldAddr` its address, `dataPage` the
freshly built consolidated page and `switchPage` the Switch delta built on
recovery. -/
def consolidateInstall (st : SmoState) (view : Nat → Option Nat)
    (nodeVer : Nat) (nodeLocked : Bool) (oldAddr dataPage switchPage : Nat) :
    SmoState × ConsolidateResult :=
  if st.slot = oldAddr then
    ({ st with slot := dataPage }, ConsolidateResult.ok dataPage)
  else if nodeLocked ∧ view st.slot = some nodeVer then
    ({ st with slot := switchPage }, ConsolidateResult.okSwitch switchPage)
  else
    ({ st with freed := dataPage :: st.freed, conflicts := st.conflicts + 1 },
      ConsolidateResult.again)

/-- C4 (counterexample): a consolidation whose mapping-slot CAS loses to a
concurrent writer need not leave the chain untouched and return Again: with
the old head locked and the competing head carrying the same version, the
switch protocol installs a Switch delta (the slot moves from the competing
writer's value 20 to the switch page 40), nothing is deallocated, no
conflict is counted, and the operation succeeds. -/
theorem c4_failed_cas_counterexample :
    consolidateInstall ⟨20, [], 0⟩ (fun a => if a = 20 then some 5 else none) 5 true 10 30 40
      = (⟨40, [], 0⟩, ConsolidateResult.okSwitch 40) := by
  rfl

/-- C4 (amended): every consolidation or split that reports Again leaves
the mapping slot holding the competing writer's value, deallocates the
freshly built page(s) and increments the conflict counter; only a
consolidation that lost its CAS while the old head was locked and whose
competitor carries the same version escapes by installing a switch delta
instead. -/
theorem c4_again_leaves_chain_untouched (st : SmoState) (view : Nat → Option Nat)
    (nodeVer : Nat) (nodeLocked : Bool) (oldAddr dataPage switchPage : Nat)
    (leftAddr splitPage rightPage : Nat)
    (hconsolidate : (consolidateInstall st view nodeVer nodeLocked oldAddr dataPage
        switchPage).2 = ConsolidateResult.again)
    (hsplitLost : st.slot ≠ leftAddr) :
    (consolidateInstall st view nodeVer nodeLocked oldAddr dataPage switchPage).1.slot
        = st.slot
    ∧ dataPage
        ∈ (consolidateInstall st view nodeVer nodeLocked oldAddr dataPage switchPage).1.freed
    ∧ (consolidateInstall st view nodeVer nodeLocked oldAddr dataPage switchPage).1.conflicts
        = st.conflicts + 1
    ∧ installSplitPage st leftAddr splitPage rightPage
        = ({ st with
              freed := rightPage :: splitPage :: st.freed
              conflicts := st.conflicts + 1 }, SmoResult.again) := by
  have hsplit : installSplitPage st leftAddr splitPage rightPage
      = ({ st with
            freed := rightPage :: splitPage :: st.freed
            conflicts := st.conflicts + 1 }, SmoResult.again) := by
    rw [installSplitPage, updateNode, if_neg hsplitLost]
  by_cases h1 : st.slot = oldAddr
  · rw [consolidateInstall, if_pos h1] at hconsolidate
    exact absurd hconsolidate (by simp)
  · by_cases h2 : nodeLocked ∧ view st.slot = some nodeVer
    · rw [consolidateInstall, if_neg h1, if_pos h2] at hconsolidate
      exact absurd hconsolidate (by simp)
    · rw [consolidateInstall, if_neg h1, if_neg h2]
      refine ⟨rfl, ?_, rfl, hsplit⟩
      exact List.mem_cons_self _ _

/-- Witness for `c4_again_leaves_chain_untouched`: an unlocked
consolidation and a split both losing their CAS (slot holds 20, both
expected 10): each deallocates its fresh pages, bumps the conflict counter
and reports Again with the slot untouched. -/
theorem c4_again_witness :
    (consolidateInstall ⟨20, [], 0⟩ (fun _ => none) 5 false 10 30 40).1.slot = 20
    ∧ installSplitPage ⟨20, [], 0⟩ 10 31 32
        = (⟨20, [32, 31], 1⟩, SmoResult.again) := by
  have h := c4_again_leaves_chain_untouched ⟨20, [], 0⟩ (fun _ => none) 5 false 10 30 40
    10 31 32 (by rfl) (by decide)
  exact ⟨h.1, h.2.2.2⟩

/-! ## Split guard and the Split delta (table.rs lines 476-551, 699, 770) -/

/-- The page-header fields the structure-modification code reads and
writes: `ver` is a u32, `len` a u8, `next` a u64 page address; `locked` is
the cooperative consolidation bit. -/
structure PageHdr where
  ver : Nat
  len : Nat
  next : Nat
  leaf : Bool
  locked : Bool
  size : Nat
  deriving DecidableEq, Repr

/-- The guard under which `consolidate_data_node` calls `split_data_node`
(table.rs line 699) and `consolidate_index_node` calls `split_index_node`
(line 770): `new_page.next() == 0 && new_page.size() >= node_size`. -/
def consolidateSplitGuard (p : PageHdr) (nodeSize : Nat) : Bool :=
  p.next == 0 && nodeSize ≤ p.size

/-- The assertion at the head of `split_data_node` / `split_index_node`
(table.rs lines 482 and 506): `assert_eq!(page.next(), 0)`. -/
def splitNextAssert (p : PageHdr) : Bool :=
  p.next == 0

/-- The Split delta built by `install_split_page` (table.rs lines 534-542):
`ver = left.ver + 1` (u32), `len = left.len + 1` (u8), `next = left head`,
leaf flag copied. -/
def installSplitDelta (left : PageHdr) (leftAddr : Nat) : PageHdr :=
  { ver := (left.ver + 1) % 2 ^ 32
    len := (left.len + 1) % 2 ^ 8
    next := leftAddr
    leaf := left.leaf
    locked := false
    size := 0 }

/-- C5: consolidation only ever splits a page that is the sole link of its
chain — the guard it checks implies `next == 0`, so the assertion at the
head of `split_data_node`/`split_index_node` holds — and the installed
Split delta carries `ver = left.ver + 1`, `len = left.len + 1` and `next`
pointing at the left head. -/
theorem c5_split_sole_link_and_delta (p left : PageHdr) (nodeSize leftAddr : Nat)
    (hguard : consolidateSplitGuard p nodeSize = true)
    (hver : left.ver + 1 < 2 ^ 32) (hlen : left.len + 1 < 2 ^ 8) :
    splitNextAssert p = true ∧ p.next = 0
    ∧ (installSplitDelta left leftAddr).ver = left.ver + 1
    ∧ (installSplitDelta left leftAddr).len = left.len + 1
    ∧ (installSplitDelta left leftAddr).next = leftAddr := by
  have hnext : p.next = 0 := by
    rw [consolidateSplitGuard, Bool.and_eq_true, beq_iff_eq] at hguard
    exact hguard.1
  refine ⟨?_, hnext, ?_, ?_, rfl⟩
  · rw [splitNextAssert, hnext]
    rfl
  · rw [installSplitDelta]
    exact Nat.mod_eq_of_lt hver
  · rw [installSplitDelta]
    exact Nat.mod_eq_of_lt hlen

/-- Witness for `c5_split_sole_link_and_delta` on a concrete
consolidated page (next 0, size 9000 ≥ node size 8192) and left head. -/
theorem c5_split_witness :
    splitNextAssert ⟨7, 0, 0, true, false, 9000⟩ = true
    ∧ (installSplitDelta ⟨7, 0, 0, true, false, 9000⟩ 77).ver = 8 := by
  have h := c5_split_sole_link_and_delta ⟨7, 0, 0, true, false, 9000⟩
    ⟨7, 0, 0, true, false, 9000⟩ 8192 77 (by decide) (by norm_num) (by norm_num)
  exact ⟨h.1, h.2.2.1⟩

/-! ## Reconcile of a split child (table.rs lines 571-606) -/

inductive ReconcileOutcome where
  | installed (newLen slot : Nat)
  | consolidateAgain
  | casFailedAgain
  deriving DecidableEq, Repr

/-- The install half of `reconcile_split_node` (table.rs lines 590-598):
once the index delta has been built, if `parent.page.len() == u8::MAX` the
delta is abandoned, `consolidate_index_node` is invoked on the parent and
Again returned (`.consolidateAgain`); otherwise the delta gets
`len = parent.len + 1` (u8) and is CAS-prepended onto the parent
(`.installed` carries the delta's len and the new slot value, or the CAS
loses and Again is returned). -/
def reconcileSplitNodeInstall (slot parentLen parentAddr deltaAddr : Nat) :
    ReconcileOutcome :=
  if parentLen = 255 then ReconcileOutcome.consolidateAgain
  else if slot = parentAddr then
    ReconcileOutcome.installed ((parentLen + 1) % 2 ^ 8) deltaAddr
  else ReconcileOutcome.casFailedAgain

/-- C6 (counterexample): with the parent's chain length at 254, prepending
the index delta brings the chain length to `u8::MAX = 255`, yet the code
installs it — the refusal only fires when the length already equals
`u8::MAX`. -/
theorem c6_reconcile_counterexample :
    reconcileSplitNodeInstall 10 254 10 99 = ReconcileOutcome.installed 255 99 := by
  rfl

/-- C6 (amended): during reconcile of a split child with a live parent, the
index delta is withheld — parent consolidation is triggered and Again
returned — exactly when the parent's chain length has already reached
`u8::MAX`; otherwise (CAS permitting) the delta is installed with length
`parent.len + 1`, which may itself reach `u8::MAX`. -/
theorem c6_reconcile_len_guard (slot parentLen parentAddr deltaAddr : Nat) :
    (parentLen = 255 →
      reconcileSplitNodeInstall slot parentLen parentAddr deltaAddr
        = ReconcileOutcome.consolidateAgain) ∧
    (parentLen ≠ 255 → slot = parentAddr →
      reconcileSplitNodeInstall slot parentLen parentAddr deltaAddr
        = ReconcileOutcome.installed ((parentLen + 1) % 2 ^ 8) deltaAddr) := by
  constructor
  · intro h
    rw [reconcileSplitNodeInstall, if_pos h]
  · intro h hcas
    rw [reconcileSplitNodeInstall, if_neg h, if_pos hcas]

/-- Witness for `c6_reconcile_len_guard`: a parent at full length 255 gets
consolidation + Again; a parent at length 3 gets the delta installed. -/
theorem c6_reconcile_len_guard_witness :
    reconcileSplitNodeInstall 10 255 10 99 = ReconcileOutcome.consolidateAgain
    ∧ reconcileSplitNodeInstall 10 3 10 99 = ReconcileOutcome.installed 4 99 := by
  exact ⟨(c6_reconcile_len_guard 10 255 10 99).1 rfl,
    (c6_reconcile_len_guard 10 3 10 99).2 (by decide) rfl⟩

/-! ## Insert guard (table.rs lines 161-201) -/

inductive InsertAction where
  | refuse (consolidateTriggered : Bool)
  | prepend (ver len next : Nat) (locked shouldConsolidate : Bool)
  deriving DecidableEq, Repr

/-- The head of one `try_insert` iteration (table.rs lines 163-180): the
decision taken against the observed leaf head before any CAS.  `page` is
the observed head, `headAddr` its address (the new delta's `next`),
`dataDeltaLength` is `opts.data_delta_length`.  `u8::MAX / 2 = 127`.
On refusal, consolidation is attempted only when the head is not locked. -/
def tryInsertStep (page : PageHdr) (headAddr dataDeltaLength : Nat) : InsertAction :=
  if 255 / 2 ≤ page.len then InsertAction.refuse (!page.locked)
  else
    let len := (page.len + 1) % 2 ^ 8
    if !page.locked && decide (dataDeltaLength ≤ len) then
      InsertAction.prepend page.ver len headAddr true true
    else
      InsertAction.prepend page.ver len headAddr page.locked false

/-- C8 (counterexample): a leaf head of chain length 127 = `u8::MAX / 2`
that is already locked by an in-flight consolidation: the insert is
refused with Again, but no consolidation of the node is triggered,
contradicting the claim that one always is. -/
theorem c8_insert_refuse_counterexample :
    tryInsertStep ⟨1, 127, 0, true, true, 0⟩ 50 8 = InsertAction.refuse false := by
  rfl

/-- C8 (amended): for every insert whose observed leaf head has chain
length at least `u8::MAX / 2 = 127`, the prepend is refused before any CAS
(so no delta is installed on the node) and Again is returned; a
consolidation of the node is triggered exactly when the head is not
already locked by an in-flight consolidation. -/
theorem c8_insert_refuses_long_chain (page : PageHdr) (headAddr dataDeltaLength : Nat)
    (hlen : 255 / 2 ≤ page.len) :
    tryInsertStep page headAddr dataDeltaLength = InsertAction.refuse (!page.locked) := by
  rw [tryInsertStep, if_pos hlen]

/-- Witness for `c8_insert_refuses_long_chain`: an unlocked head at length
200 is refused and consolidation is triggered. -/
theorem c8_insert_refuses_long_chain_witness :
    tryInsertStep ⟨1, 200, 0, true, false, 0⟩ 50 8 = InsertAction.refuse true := by
  have h := c8_insert_refuses_long_chain ⟨1, 200, 0, true, false, 0⟩ 50 8 (by norm_num)
  exact h

/-! ## MVCC lookup (table.rs lines 286-364, src/page/data.rs lines 17-24)

The leaf's delta chain is embedded as the list of pages `walk_node`
visits, newest first (Switch splicing already applied, since walking
treats a rewritten `next` as the spliced address).  Raw keys are byte
strings, values are Put or Delete as in `src/page/data.rs`. -/

abbrev Bytes := List Nat

inductive Val where
  | put (v : Bytes)
  | delete
  deriving DecidableEq, Repr

structure Entry where
  raw : Bytes
  lsn : Nat
  val : Val
  deriving DecidableEq, Repr

/-- Lexicographic ordering of raw keys (`[u8]::cmp` in Rust). -/
def rawCmp : Bytes → Bytes → Ordering
  | [], [] => Ordering.eq
  | [], _ :: _ => Ordering.lt
  | _ :: _, [] => Ordering.gt
  | x :: xs, y :: ys =>
    match compare x y with
    | Ordering.eq => rawCmp xs ys
    | o => o

/-- From `Key::cmp` (data.rs lines 17-24): raw bytes ascending, ties broken by
LSN descending (`other.lsn.cmp(&self.lsn)`), so newer versions sort before
older versions of the same raw key. -/
def keyCmp (a b : Bytes × Nat) : Ordering :=
  match rawCmp a.1 b.1 with
  | Ordering.eq => compare b.2 a.2
  | o => o

/-- A page of a leaf's delta chain as `lookup_value`'s walk sees it: a Data
page with its sorted entries, or a Split delta (skipped by the walk, which
only matches `TypedPageRef::Data`). -/
inductive LeafPage where
  | data (entries : List Entry)
  | split
  deriving DecidableEq, Repr

def pageEntries : LeafPage → List Entry
  | LeafPage.data es => es
  | LeafPage.split => []

/-- The match predicate of the lookup: raw key equal and LSN at most the
read LSN. -/
def entMatch (raw : Bytes) (lsn : Nat) (e : Entry) : Bool :=
  e.raw == raw && e.lsn ≤ lsn

/-- Modelled from the spec: `DataPageRef::find` (the sorted-page module is
not among the repository's files).  Spec §4.3: "walk the leaf's delta
chain until a Data page contains a matching (raw_key, lsn') with
lsn' ≤ lsn and the first such hit wins" — on a `keyCmp`-sorted page the
seek lands on the first entry matching `(raw, lsn' ≤ lsn)`, which by the
LSN-descending tie order is the one with the greatest such lsn'. -/
def dataFind (es : List Entry) (raw : Bytes) (lsn : Nat) : Option Entry :=
  es.find? (entMatch raw lsn)

/-- From `Inner::lookup_value` over `walk_node` (table.rs lines 320-364): the
first Data page whose `find` hits decides; a Put yields its value, a
Delete yields None. -/
def lookupValue : List LeafPage → Bytes → Nat → Option Bytes
  | [], _, _ => none
  | LeafPage.split :: rest, raw, lsn => lookupValue rest raw lsn
  | LeafPage.data es :: rest, raw, lsn =>
    match dataFind es raw lsn with
    | some e =>
      match e.val with
      | Val.put v => some v
      | Val.delete => none
    | none => lookupValue rest raw lsn

def chainEntries (chain : List LeafPage) : List Entry :=
  chain.flatMap pageEntries

/-- The records of the chain visible at a read LSN. -/
def candidates (chain : List LeafPage) (raw : Bytes) (lsn : Nat) : List Entry :=
  (chainEntries chain).filter (entMatch raw lsn)

/-- The entry with the greatest LSN (first among equals). -/
def maxByLsn : List Entry → Option Entry
  | [] => none
  | e :: es =>
    match maxByLsn es with
    | none => some e
    | some m => if m.lsn ≤ e.lsn then some e else some m

/-- The most recent record with the given raw key and LSN ≤ the read LSN —
the record the spec says `get` must report. -/
def mostRecent (chain : List LeafPage) (raw : Bytes) (lsn : Nat) : Option Entry :=
  maxByLsn (candidates chain raw lsn)

/-- Entries of a page are sorted strictly ascending by `Key::cmp`. -/
def pageSorted (p : LeafPage) : Prop :=
  (pageEntries p).Pairwise (fun a b => keyCmp (a.raw, a.lsn) (b.raw, b.lsn) = Ordering.lt)

/-- The chain is newest-first: a record of an earlier (newer) page is
strictly newer than any record of a later page with the same raw key. -/
def chainNewestFirst (chain : List LeafPage) : Prop :=
  chain.Pairwise (fun p q => ∀ a ∈ pageEntries p, ∀ b ∈ pageEntries q,
    a.raw = b.raw → b.lsn < a.lsn)

theorem rawCmp_self (x : Bytes) : rawCmp x x = Ordering.eq := by
  induction x with
  | nil => rfl
  | cons a xs ih =>
    rw [rawCmp]
    have h : compare a a = Ordering.eq := Nat.compare_eq_eq.mpr rfl
    rw [h]
    exact ih

theorem keyCmp_same_raw_lt {a b : Entry} (hraw : a.raw = b.raw)
    (h : keyCmp (a.raw, a.lsn) (b.raw, b.lsn) = Ordering.lt) : b.lsn < a.lsn := by
  rw [keyCmp] at h
  simp only [hraw, rawCmp_self] at h
  exact Nat.compare_eq_lt.mp h

theorem entMatch_iff (raw : Bytes) (lsn : Nat) (e : Entry) :
    entMatch raw lsn e = true ↔ (e.raw = raw ∧ e.lsn ≤ lsn) := by
  rw [entMatch, Bool.and_eq_true, beq_iff_eq, decide_eq_true_iff]

theorem dataFind_some {es : List Entry} {raw : Bytes} {lsn : Nat} {e : Entry}
    (h : dataFind es raw lsn = some e) :
    e ∈ es ∧ e.raw = raw ∧ e.lsn ≤ lsn := by
  have hm := List.mem_of_find?_eq_some h
  have hp := List.find?_some h
  rw [entMatch_iff] at hp
  exact ⟨hm, hp.1, hp.2⟩

theorem dataFind_none {es : List Entry} {raw : Bytes} {lsn : Nat}
    (h : dataFind es raw lsn = none) :
    ∀ e ∈ es, ¬ (e.raw = raw ∧ e.lsn ≤ lsn) := by
  intro e hmem
  rw [← entMatch_iff]
  have := List.find?_eq_none.mp h e hmem
  simpa using this

/-- On a sorted page, the first hit has the greatest LSN among the page's
matches. -/
theorem dataFind_max {es : List Entry} {raw : Bytes} {lsn : Nat} {e : Entry}
    (hs : es.Pairwise (fun a b => keyCmp (a.raw, a.lsn) (b.raw, b.lsn) = Ordering.lt))
    (hf : dataFind es raw lsn = some e) :
    ∀ e' ∈ es, e'.raw = raw → e'.lsn ≤ lsn → e' ≠ e → e'.lsn < e.lsn := by
  induction es with
  | nil => exact absurd hf (by simp [dataFind])
  | cons x xs ih =>
    obtain ⟨hx, hxs⟩ := List.pairwise_cons.mp hs
    by_cases hpx : entMatch raw lsn x = true
    · have hex : e = x := by
        rw [dataFind, List.find?_cons_of_pos _ hpx] at hf
        exact (Option.some_inj.mp hf).symm
      subst hex
      intro e' he' hraw hlsn hne
      rcases List.mem_cons.mp he' with rfl | hmem
      · exact absurd rfl hne
      · have hlt := hx e' hmem
        have hxraw : e.raw = raw := (entMatch_iff raw lsn e).mp hpx |>.1
        exact keyCmp_same_raw_lt (hxraw.trans hraw.symm) hlt
    · rw [dataFind, List.find?_cons_of_neg _ hpx] at hf
      intro e' he' hraw hlsn hne
      rcases List.mem_cons.mp he' with rfl | hmem
      · exact absurd ((entMatch_iff raw lsn e').mpr ⟨hraw, hlsn⟩) hpx
      · exact ih hxs hf e' hmem hraw hlsn hne

theorem maxByLsn_cons_none {e : Entry} {es : List Entry} (h : maxByLsn es = none) :
    maxByLsn (e :: es) = some e := by
  rw [maxByLsn, h]

theorem maxByLsn_cons_some {e m : Entry} {es : List Entry} (h : maxByLsn es = some m) :
    maxByLsn (e :: es) = if m.lsn ≤ e.lsn then some e else some m := by
  rw [maxByLsn, h]

theorem maxByLsn_mem {l : List Entry} {m : Entry} (h : maxByLsn l = some m) : m ∈ l := by
  induction l with
  | nil => exact absurd h (by simp [maxByLsn])
  | cons e es ih =>
    cases hes : maxByLsn es with
    | none =>
      rw [maxByLsn_cons_none hes] at h
      exact List.mem_cons.mpr (Or.inl (Option.some_inj.mp h).symm)
    | some m' =>
      rw [maxByLsn_cons_some hes] at h
      by_cases hle : m'.lsn ≤ e.lsn
      · rw [if_pos hle] at h
        exact List.mem_cons.mpr (Or.inl (Option.some_inj.mp h).symm)
      · rw [if_neg hle] at h
        have hm : m' = m := Option.some_inj.mp h
        subst hm
        exact List.mem_cons.mpr (Or.inr (ih hes))

/-- The strict maximum is what `maxByLsn` returns. -/
theorem maxByLsn_eq_of_max {l : List Entry} {e : Entry} (hmem : e ∈ l)
    (hmax : ∀ e' ∈ l, e' ≠ e → e'.lsn < e.lsn) : maxByLsn l = some e := by
  induction l with
  | nil => exact absurd hmem (List.not_mem_nil e)
  | cons x xs ih =>
    rcases List.mem_cons.mp hmem with rfl | hmem'
    · cases hxs : maxByLsn xs with
      | none => exact maxByLsn_cons_none hxs
      | some m =>
        have hm := maxByLsn_mem hxs
        rw [maxByLsn_cons_some hxs]
        by_cases hme : m = e
        · subst hme
          rw [if_pos (Nat.le_refl _)]
        · have hlt := hmax m (List.mem_cons_of_mem _ hm) hme
          rw [if_pos (Nat.le_of_lt hlt)]
    · have hxs : maxByLsn xs = some e :=
        ih hmem' (fun e' he' hne => hmax e' (List.mem_cons_of_mem _ he') hne)
      rw [maxByLsn_cons_some hxs]
      rcases ne_or_eq x e with hne | rfl
      · have hlt := hmax x (List.mem_cons_self _ _) hne
        rw [if_neg (by omega)]
      · rw [if_pos (Nat.le_refl _)]

theorem candidates_cons (p : LeafPage) (rest : List LeafPage) (raw : Bytes) (lsn : Nat) :
    candidates (p :: rest) raw lsn
      = (pageEntries p).filter (entMatch raw lsn) ++ candidates rest raw lsn := by
  rw [candidates, candidates, chainEntries, chainEntries, List.flatMap_cons,
    List.filter_append]

/-- C1: for every raw key and read LSN, on a leaf chain whose pages are
`Key::cmp`-sorted and whose delta order is newest-first, `lookup_value`
reports exactly the most recent record with that raw key and LSN ≤ the
read LSN: Some(v) if it is Put(v), None if it is a Delete or there is no
such record.  The first Data-page hit of the walk decides the answer. -/
theorem c1_lookup_value_mvcc (chain : List LeafPage) (raw : Bytes) (lsn : Nat)
    (hsorted : ∀ p ∈ chain, pageSorted p)
    (hnewest : chainNewestFirst chain) :
    lookupValue chain raw lsn
      = match mostRecent chain raw lsn with
        | some e =>
          match e.val with
          | Val.put v => some v
          | Val.delete => none
        | none => none := by
  induction chain with
  | nil => rfl
  | cons p rest ih =>
    have hsorted_rest : ∀ q ∈ rest, pageSorted q :=
      fun q hq => hsorted q (List.mem_cons_of_mem _ hq)
    obtain ⟨hhead, hnewest_rest⟩ := List.pairwise_cons.mp hnewest
    have htail := ih hsorted_rest hnewest_rest
    cases p with
    | split =>
      have hc : mostRecent (LeafPage.split :: rest) raw lsn = mostRecent rest raw lsn := by
        rw [mostRecent, mostRecent, candidates_cons]
        rfl
      rw [lookupValue, hc]
      exact htail
    | data es =>
      cases hf : dataFind es raw lsn with
      | none =>
        have hc : mostRecent (LeafPage.data es :: rest) raw lsn
            = mostRecent rest raw lsn := by
          rw [mostRecent, mostRecent, candidates_cons]
          have hfil : (pageEntries (LeafPage.data es)).filter (entMatch raw lsn) = [] := by
            rw [List.filter_eq_nil_iff]
            intro e he hcontra
            exact dataFind_none hf e he ((entMatch_iff raw lsn e).mp hcontra)
          rw [hfil, List.nil_append]
        rw [lookupValue, hf, hc]
        exact htail
      | some e =>
        obtain ⟨hmem, hraw, hlsn⟩ := dataFind_some hf
        have hemem : e ∈ candidates (LeafPage.data es :: rest) raw lsn := by
          rw [candidates_cons]
          exact List.mem_append_left _
            (List.mem_filter.mpr ⟨hmem, (entMatch_iff raw lsn e).mpr ⟨hraw, hlsn⟩⟩)
        have hmax : ∀ e' ∈ candidates (LeafPage.data es :: rest) raw lsn,
            e' ≠ e → e'.lsn < e.lsn := by
          intro e' he' hne
          rw [candidates_cons] at he'
          rcases List.mem_append.mp he' with hl | hr
          · obtain ⟨hmem', hp'⟩ := List.mem_filter.mp hl
            obtain ⟨hraw', hlsn'⟩ := (entMatch_iff raw lsn e').mp hp'
            exact dataFind_max (hsorted _ (List.mem_cons_self _ _)) hf e' hmem' hraw' hlsn' hne
          · obtain ⟨hmem', hp'⟩ := List.mem_filter.mp
              (show e' ∈ (chainEntries rest).filter (entMatch raw lsn) from hr)
            obtain ⟨hraw', hlsn'⟩ := (entMatch_iff raw lsn e').mp hp'
            obtain ⟨q, hq, heq⟩ := List.mem_flatMap.mp hmem'
            exact hhead q hq e hmem e' heq (hraw.trans hraw'.symm)
        have hmr : mostRecent (LeafPage.data es :: rest) raw lsn = some e :=
          maxByLsn_eq_of_max hemem hmax
        rw [lookupValue, hf, hmr]

/-- Witness for `c1_lookup_value_mvcc`: a two-page chain — a delta holding
(key [1], LSN 3, Delete) above a base holding (key [1], LSN 1, Put [9]) and
(key [2], LSN 2, Put [7]).  Reading key [1] at LSN 2 skips the newer
delete and yields Some([9]); reading at LSN 3 sees the delete. -/
theorem c1_lookup_value_mvcc_witness :
    lookupValue [LeafPage.data [⟨[1], 3, Val.delete⟩],
        LeafPage.data [⟨[1], 1, Val.put [9]⟩, ⟨[2], 2, Val.put [7]⟩]] [1] 2
      = some [9] := by
  have h := c1_lookup_value_mvcc
    [LeafPage.data [⟨[1], 3, Val.delete⟩],
      LeafPage.data [⟨[1], 1, Val.put [9]⟩, ⟨[2], 2, Val.put [7]⟩]] [1] 2
    (by
      intro p hp
      rw [pageSorted]
      fin_cases hp <;> decide)
    (by
      rw [chainNewestFirst]
      decide)
  rw [h]
  rfl

end PhotonDB
